import Mathlib

/-!
Shallow embedding of the data pipeline of `src/streamlit_app.py`:
the NOAA fetch-and-normalize function with its synthetic fallback
(`load_noaa_data`), the user-study dataset transforms (date-range filter,
rolling-mean smoothing, standardization, Pearson correlation), and the CSV
export/re-parse round trip.  Machine floats are modelled as exact numbers
(`ℚ` for data carried through list transforms, `ℝ` where the code applies
`sin`/`sqrt`); float NaN is modelled as `none` of an `Option`.
-/

namespace Climate

/-- A calendar date (year, month, day), as produced by `pd.to_datetime`.
Timestamps in the program are compared chronologically. -/
structure Date where
  y : ℕ
  m : ℕ
  d : ℕ
deriving DecidableEq

/-- Chronological sort key of a date: lexicographic on (year, month, day),
valid because month and day are below 100 in every date the program builds. -/
def Date.key (t : Date) : ℕ := t.y * 10000 + t.m * 100 + t.d

/-- Gregorian leap-year rule (the rule pandas timestamps follow). -/
def isLeap (y : ℕ) : Bool := (y % 4 == 0 && y % 100 != 0) || (y % 400 == 0)

/-- Number of days in a month of the Gregorian calendar. -/
def daysInMonth (y m : ℕ) : ℕ :=
  if m = 2 then (if isLeap y then 29 else 28)
  else if m = 4 ∨ m = 6 ∨ m = 9 ∨ m = 11 then 30
  else 31

/-- One row of the NOAA table after `pd.read_csv` plus the
`pd.to_datetime(..., errors="coerce")` step: an unparseable or missing date
cell is `none` (pandas `NaT`), a missing/unparseable value cell is `none`
(pandas `NaN`). -/
structure RawRow where
  date : Option Date
  value : Option ℝ

/-- The exceptions the `try` block of `load_noaa_data` can see. -/
inductive PyError
  | netError
  | parseError
  | keyError
  | otherError
deriving DecidableEq

/-- Outcome of the remote retrieval `pd.read_csv(url)`: a network failure, a
non-tabular response, some other exception, or a parsed table.  The two
Booleans record whether the parsed table has a `date` column and an
`anomaly` column (their absence makes a later indexing step raise
`KeyError`). -/
inductive FetchOutcome
  | netError
  | parseError
  | otherError
  | table (hasDateCol hasAnomalyCol : Bool) (rows : List RawRow)

/-- The body of the `try` block of `load_noaa_data` (lines 32-38 of
`streamlit_app.py`): parse, coerce dates, drop rows with missing date,
drop future-dated rows, rename `anomaly` to `value`, select the two
columns.  Any raised exception is the `Except.error` branch:
`df["date"]` raises `KeyError` without a `date` column, and
`df[["date", "value"]]` raises `KeyError` without an `anomaly` column
(`rename` silently ignores a missing source column).
Note: `dropna(subset=["date"])` drops rows with a missing *date* only;
rows with a missing *value* are kept. -/
def pipelineE (o : FetchOutcome) (today : Date) : Except PyError (List RawRow) :=
  match o with
  | .netError => .error .netError
  | .parseError => .error .parseError
  | .otherError => .error .otherError
  | .table hasDateCol hasAnomalyCol rows =>
      if hasDateCol = false then .error .keyError
      else
        let r1 := rows.filter (fun r => r.date.isSome)
        let r2 := r1.filter (fun r =>
          match r.date with
          | some d => decide (d.key ≤ today.key)
          | none => false)
        if hasAnomalyCol = false then .error .keyError
        else .ok r2

/-- The i-th date of `pd.date_range("2000-01-01", periods=240, freq="M")`:
frequency `"M"` is *month end*, so the i-th element is the last day of the
i-th month counted from January 2000 (the first is 2000-01-31, not
2000-01-01). -/
def fallbackDate (i : ℕ) : Date :=
  ⟨2000 + i / 12, i % 12 + 1, daysInMonth (2000 + i / 12) (i % 12 + 1)⟩

/-- The fallback branch of `load_noaa_data` (lines 41-44): 240 month-end
dates from 2000-01-31 and values `sin(linspace(0, 20, 240)) + noise`, where
`noise` stands for the draw of `np.random.normal(0, 0.2, 240)` (randomness
is a parameter of the embedding). -/
noncomputable def generateFallback (noise : ℕ → ℝ) : List RawRow :=
  (List.range 240).map (fun i =>
    ⟨some (fallbackDate i), some (Real.sin (20 * i / 239) + noise i)⟩)

/-- The function `load_noaa_data` (lines 24-44): run the `try` block; on success return
the normalized table with origin flag `true` (REMOTE), on any exception
return the synthetic fallback with flag `false` (FALLBACK). -/
noncomputable def load_noaa_data (o : FetchOutcome) (today : Date) (noise : ℕ → ℝ) :
    List RawRow × Bool :=
  match pipelineE o today with
  | .ok t => (t, true)
  | .error _ => (generateFallback noise, false)

/-- A fixed invocation date used for concrete instances. -/
def today0 : Date := ⟨2026, 10, 12⟩

/-- A fixed noise draw (all zero) used for concrete instances. -/
noncomputable def noise0 : ℕ → ℝ := fun _ => 0

/-- C1: for every outcome of the remote retrieval (network error, parse
error, schema error — a missing `date` or `anomaly` column — or any other
exception), `load_noaa_data` never propagates an error: it returns the
normalized table with origin REMOTE when the `try` body succeeds, and
otherwise degrades to the synthetic fallback series with origin FALLBACK. -/
theorem load_never_raises (o : FetchOutcome) (today : Date) (noise : ℕ → ℝ) :
    (∃ t, pipelineE o today = .ok t ∧ load_noaa_data o today noise = (t, true)) ∨
    (∃ e, pipelineE o today = .error e ∧
      load_noaa_data o today noise = (generateFallback noise, false)) := by
  unfold load_noaa_data
  cases h : pipelineE o today with
  | ok t => exact Or.inl ⟨t, rfl, rfl⟩
  | error e => exact Or.inr ⟨e, rfl, rfl⟩

/-- C2 counterexample: a successfully parsed table whose single row has an
unparseable date normalizes to the *empty* table, yet `load_noaa_data`
returns origin REMOTE (`true`) — contradicting the claim that an empty
normalized table yields origin FALLBACK. -/
theorem empty_table_still_remote :
    (load_noaa_data (.table true true [⟨none, none⟩]) today0 noise0).fst = [] ∧
    (load_noaa_data (.table true true [⟨none, none⟩]) today0 noise0).snd = true := by
  constructor <;> rfl

/-- C2 amended: `load_noaa_data` returns origin REMOTE exactly when the
retrieval-and-normalization body completes without an exception — even when
the normalized table is empty; it delegates to the fallback generator and
returns origin FALLBACK exactly when an exception was raised. -/
theorem origin_remote_iff_no_exception (o : FetchOutcome) (today : Date) (noise : ℕ → ℝ) :
    ((load_noaa_data o today noise).snd = true ↔
      pipelineE o today = .ok (load_noaa_data o today noise).fst) ∧
    ((load_noaa_data o today noise).snd = false →
      (load_noaa_data o today noise).fst = generateFallback noise) := by
  unfold load_noaa_data
  cases h : pipelineE o today with
  | ok t => exact ⟨⟨fun _ => rfl, fun _ => rfl⟩, fun hf => by simp at hf⟩
  | error e => exact ⟨⟨fun ht => by simp at ht, fun hh => by simp at hh⟩, fun _ => rfl⟩

/-- Witness for C2's amended theorem at a concrete failing outcome. -/
theorem origin_remote_iff_no_exception_w :
    (load_noaa_data .netError today0 noise0).snd = false ∧
    (load_noaa_data .netError today0 noise0).fst = generateFallback noise0 :=
  ⟨rfl, (origin_remote_iff_no_exception .netError today0 noise0).2 rfl⟩

lemma daysInMonth_bounds (y m : ℕ) : 28 ≤ daysInMonth y m ∧ daysInMonth y m ≤ 31 := by
  unfold daysInMonth
  split_ifs <;> omega

lemma fallbackDate_key_lt (i : ℕ) : (fallbackDate i).key < (fallbackDate (i + 1)).key := by
  have h1 := daysInMonth_bounds (2000 + i / 12) (i % 12 + 1)
  have h2 := daysInMonth_bounds (2000 + (i + 1) / 12) ((i + 1) % 12 + 1)
  simp only [fallbackDate, Date.key]
  omega

lemma fallbackKey_strictMono : StrictMono (fun i => (fallbackDate i).key) :=
  strictMono_nat_of_lt_succ fallbackDate_key_lt

lemma generateFallback_map_date (noise : ℕ → ℝ) :
    (generateFallback noise).map RawRow.date =
      (List.range 240).map (fun i => some (fallbackDate i)) := by
  simp [generateFallback, List.map_map, Function.comp]

lemma generateFallback_length (noise : ℕ → ℝ) : (generateFallback noise).length = 240 := by
  simp [generateFallback]

/-- C3 counterexample: when retrieval fails, the first date of the returned
fallback series is 2000-01-31 (`freq="M"` is month-*end*), not the epoch
2000-01-01 the claim states the dates start at. -/
theorem fallback_not_starting_at_epoch :
    ((load_noaa_data .parseError today0 noise0).fst.map RawRow.date).head? =
      some (some ⟨2000, 1, 31⟩) ∧ (⟨2000, 1, 31⟩ : Date) ≠ ⟨2000, 1, 1⟩ := by
  constructor
  · have h : (load_noaa_data .parseError today0 noise0).fst = generateFallback noise0 := rfl
    rw [h, generateFallback_map_date]
    rfl
  · decide

/-- C3 amended: when the retrieval raises, `load_noaa_data` returns origin
FALLBACK and a series of length exactly 240 whose dates are the strictly
increasing month-end sequence anchored at the epoch 2000-01-01: consecutive
dates are exactly one calendar month apart and the first is 2000-01-31 (the
end of the epoch month), not the epoch day itself. -/
theorem fallback_shape (o : FetchOutcome) (today : Date) (noise : ℕ → ℝ)
    (h : ∃ e, pipelineE o today = .error e) :
    (load_noaa_data o today noise).snd = false ∧
    (load_noaa_data o today noise).fst.length = 240 ∧
    (load_noaa_data o today noise).fst.map RawRow.date =
      (List.range 240).map (fun i => some (fallbackDate i)) ∧
    ((List.range 240).map (fun i => (fallbackDate i).key)).Pairwise (· < ·) ∧
    (∀ i, (fallbackDate (i + 1)).y * 12 + (fallbackDate (i + 1)).m =
      (fallbackDate i).y * 12 + (fallbackDate i).m + 1) ∧
    fallbackDate 0 = ⟨2000, 1, 31⟩ := by
  obtain ⟨e, he⟩ := h
  have hl : load_noaa_data o today noise = (generateFallback noise, false) := by
    unfold load_noaa_data
    rw [he]
  rw [hl]
  refine ⟨rfl, generateFallback_length noise, generateFallback_map_date noise, ?_, ?_, rfl⟩
  · exact List.pairwise_map.mpr ((List.pairwise_lt_range 240).imp
      (fun hab => fallbackKey_strictMono hab))
  · intro i
    simp only [fallbackDate]
    omega

/-- Witness for C3's amended theorem at a concrete failing outcome. -/
theorem fallback_shape_w :
    (∃ e, pipelineE .otherError today0 = .error e) ∧
    ((load_noaa_data .otherError today0 noise0).snd = false ∧
     (load_noaa_data .otherError today0 noise0).fst.length = 240 ∧
     (load_noaa_data .otherError today0 noise0).fst.map RawRow.date =
       (List.range 240).map (fun i => some (fallbackDate i)) ∧
     ((List.range 240).map (fun i => (fallbackDate i).key)).Pairwise (· < ·) ∧
     (∀ i, (fallbackDate (i + 1)).y * 12 + (fallbackDate (i + 1)).m =
       (fallbackDate i).y * 12 + (fallbackDate i).m + 1) ∧
     fallbackDate 0 = ⟨2000, 1, 31⟩) :=
  ⟨⟨.otherError, rfl⟩, fallback_shape .otherError today0 noise0 ⟨.otherError, rfl⟩⟩

/-- C7 counterexample: a row with a valid past date but a *missing value*
survives normalization and is returned with origin REMOTE — the code's
`dropna(subset=["date"])` never drops rows for a missing value, contrary to
the claim. -/
theorem missing_value_row_kept :
    (load_noaa_data (.table true true [⟨some ⟨2020, 5, 1⟩, none⟩]) today0 noise0) =
      ([⟨some ⟨2020, 5, 1⟩, none⟩], true) ∧
    (⟨some ⟨2020, 5, 1⟩, none⟩ : RawRow).value = none := by
  constructor <;> rfl

/-- C7 amended: every row of a REMOTE (origin `true`) series has a
non-missing date that is not after the invocation time — rows with
unparseable dates and future-dated rows are dropped during normalization —
but rows with a missing value are retained, not dropped. -/
theorem remote_rows_valid_dates (o : FetchOutcome) (today : Date) (noise : ℕ → ℝ)
    (h : (load_noaa_data o today noise).snd = true) :
    ∀ r ∈ (load_noaa_data o today noise).fst,
      ∃ d, r.date = some d ∧ d.key ≤ today.key := by
  intro r hr
  unfold load_noaa_data at h hr
  cases ho : pipelineE o today with
  | error e => rw [ho] at h; simp at h
  | ok t =>
      rw [ho] at hr
      simp only at hr
      cases o with
      | netError => simp [pipelineE] at ho
      | parseError => simp [pipelineE] at ho
      | otherError => simp [pipelineE] at ho
      | table hasDateCol hasAnomalyCol rows =>
          simp only [pipelineE] at ho
          by_cases hd : hasDateCol = false
          · simp [hd] at ho
          · by_cases ha : hasAnomalyCol = false
            · simp [hd, ha] at ho
            · simp only [hd, ha, if_false] at ho
              cases ho
              have hmem := List.of_mem_filter hr
              cases hdate : r.date with
              | none => rw [hdate] at hmem; simp at hmem
              | some d =>
                  refine ⟨d, rfl, ?_⟩
                  rw [hdate] at hmem
                  exact of_decide_eq_true hmem

/-- Witness for C7's amended theorem at a concrete successful outcome. -/
theorem remote_rows_valid_dates_w :
    (load_noaa_data (.table true true [⟨some ⟨2020, 5, 1⟩, none⟩]) today0 noise0).snd = true ∧
    ∀ r ∈ (load_noaa_data (.table true true [⟨some ⟨2020, 5, 1⟩, none⟩]) today0 noise0).fst,
      ∃ d, r.date = some d ∧ d.key ≤ today0.key :=
  ⟨rfl, remote_rows_valid_dates (.table true true [⟨some ⟨2020, 5, 1⟩, none⟩]) today0 noise0 rfl⟩

/-- pandas `Series.rolling(w).mean()` for a window `w > 0` (default
`min_periods = w`): position `i` holds the arithmetic mean of the trailing
`w` observations once a full window exists (`i + 1 ≥ w`) and NaN (`none`)
before that. -/
def rollingMean (w : ℕ) (xs : List ℚ) : List (Option ℚ) :=
  (List.range xs.length).map (fun i =>
    if w ≤ i + 1 then some ((((xs.take (i + 1)).drop (i + 1 - w)).sum) / w) else none)

/-- The smoothing step of the sidebar pipeline (lines 117-118 of
`streamlit_app.py`): the rolling mean is applied only when
`smoothing_window > 0`; `w = 0` leaves the column untouched.  An untouched
plain column is injected into the NaN-carrying column type with `some`. -/
def applySmoothing (w : ℕ) (xs : List ℚ) : List (Option ℚ) :=
  if 0 < w then rollingMean w xs else xs.map some

lemma rollingMean_length (w : ℕ) (xs : List ℚ) : (rollingMean w xs).length = xs.length := by
  simp [rollingMean]

lemma applySmoothing_length (w : ℕ) (xs : List ℚ) :
    (applySmoothing w xs).length = xs.length := by
  unfold applySmoothing
  split_ifs <;> simp [rollingMean_length]

lemma rollingMean_getElem (w : ℕ) (xs : List ℚ) (i : ℕ) (hi : i < xs.length) :
    (rollingMean w xs)[i]? =
      some (if w ≤ i + 1 then some ((((xs.take (i + 1)).drop (i + 1 - w)).sum) / w)
            else none) := by
  unfold rollingMean
  rw [List.getElem?_map, List.getElem?_range hi]
  rfl

lemma rollingMean_one (xs : List ℚ) : rollingMean 1 xs = xs.map some := by
  apply List.ext_getElem?
  intro i
  by_cases hi : i < xs.length
  · rw [rollingMean_getElem 1 xs i hi, List.getElem?_map, List.getElem?_eq_getElem hi]
    have h1 : (1 : ℕ) ≤ i + 1 := Nat.succ_le_succ (Nat.zero_le i)
    rw [if_pos h1]
    have hw : (xs.take (i + 1)).drop (i + 1 - 1) = [xs[i]] := by
      have h2 : i + 1 - 1 = i := rfl
      rw [h2, ← List.take_drop i 1 xs]
      simpa using List.take_one_drop_eq_of_lt_length hi
    rw [hw]
    norm_num
  · have hlen : xs.length ≤ i := Nat.le_of_not_lt hi
    rw [List.getElem?_eq_none (by simpa [rollingMean_length] using hlen),
      List.getElem?_eq_none (by simpa using hlen)]

/-- C4: rolling-mean smoothing with `w = 0` and with `w = 1` is the
identity transform on the value column; with `w > 0` it keeps the column
length and replaces the value at each index `i ≥ w - 1` with the arithmetic
mean of the trailing `w` observations (indices `i - w + 1 .. i`), leaving
every position `i < w - 1` undefined (`none`). -/
theorem rolling_mean_spec (xs : List ℚ) :
    applySmoothing 0 xs = xs.map some ∧
    applySmoothing 1 xs = xs.map some ∧
    ∀ w, 0 < w → (applySmoothing w xs).length = xs.length ∧
      ∀ i, i < xs.length →
        (w - 1 ≤ i →
          (applySmoothing w xs)[i]? =
            some (some (((xs.drop (i + 1 - w)).take w).sum / w))) ∧
        (i < w - 1 → (applySmoothing w xs)[i]? = some none) := by
  refine ⟨rfl, ?_, ?_⟩
  · unfold applySmoothing
    rw [if_pos Nat.one_pos, rollingMean_one]
  · intro w hw
    refine ⟨applySmoothing_length w xs, ?_⟩
    intro i hi
    have hs : applySmoothing w xs = rollingMean w xs := by
      unfold applySmoothing
      rw [if_pos hw]
    constructor
    · intro hwi
      have hw1 : w ≤ i + 1 := by omega
      have hswap : (xs.take (i + 1)).drop (i + 1 - w) = (xs.drop (i + 1 - w)).take w := by
        have h2 : (i + 1 - w) + w = i + 1 := by omega
        rw [List.take_drop (i + 1 - w) w xs, h2]
      rw [hs, rollingMean_getElem w xs i hi, if_pos hw1, hswap]
    · intro hwi
      have hw1 : ¬ w ≤ i + 1 := by omega
      rw [hs, rollingMean_getElem w xs i hi, if_neg hw1]

/-- Witness for C4 at the concrete column `[1, 2, 3]` with window 2. -/
theorem rolling_mean_spec_w :
    applySmoothing 0 ([1, 2, 3] : List ℚ) = ([1, 2, 3] : List ℚ).map some ∧
    applySmoothing 1 ([1, 2, 3] : List ℚ) = ([1, 2, 3] : List ℚ).map some ∧
    (applySmoothing 2 ([1, 2, 3] : List ℚ)).length = ([1, 2, 3] : List ℚ).length ∧
    (applySmoothing 2 ([1, 2, 3] : List ℚ))[1]? =
      some (some (((([1, 2, 3] : List ℚ).drop (1 + 1 - 2)).take 2).sum / 2)) ∧
    (applySmoothing 2 ([1, 2, 3] : List ℚ))[0]? = some none :=
  ⟨(rolling_mean_spec [1, 2, 3]).1,
   (rolling_mean_spec [1, 2, 3]).2.1,
   ((rolling_mean_spec [1, 2, 3]).2.2 2 (by decide)).1,
   (((rolling_mean_spec [1, 2, 3]).2.2 2 (by decide)).2 1 (by decide)).1 (by decide),
   (((rolling_mean_spec [1, 2, 3]).2.2 2 (by decide)).2 0 (by decide)).2 (by decide)⟩

/-- Mean of a column, `col.sum() / len(col)` (0 for an empty column, a case
the callers guard). -/
def qmean (xs : List ℚ) : ℚ := xs.sum / (xs.length : ℚ)

/-- Sample variance with the pandas default `ddof = 1`
(denominator `n - 1`). -/
def svar (xs : List ℚ) : ℚ :=
  ((xs.map (fun x => (x - qmean xs) ^ 2)).sum) / (((xs.length - 1 : ℕ) : ℚ))

/-- Sample covariance (ddof = 1) of a list of pairs. -/
def scov (ps : List (ℚ × ℚ)) : ℚ :=
  ((ps.map (fun p =>
      (p.1 - qmean (ps.map Prod.fst)) * (p.2 - qmean (ps.map Prod.snd)))).sum) /
    (((ps.length - 1 : ℕ) : ℚ))

/-- Positional pairing of two NaN-carrying columns, keeping exactly the
positions where both entries are present — the pair alignment
`Series.corr` performs before computing the coefficient. -/
def pairedRows (xs ys : List (Option ℚ)) : List (ℚ × ℚ) :=
  (xs.zip ys).filterMap (fun p =>
    match p with
    | (some a, some b) => some (a, b)
    | _ => none)

/-- The correlation `df_vis["summer_avg_temp_C"].corr(df_vis["math_score"])` (line 157):
Pearson coefficient over the paired non-missing entries.  With fewer than 2
pairs the ddof-1 standard deviations are float NaN, and with zero variance
the quotient is 0/0; in both cases the float result is NaN, modelled as
`none`. -/
noncomputable def pearson (xs ys : List (Option ℚ)) : Option ℝ :=
  if (pairedRows xs ys).length < 2 ∨ svar ((pairedRows xs ys).map Prod.fst) = 0 ∨
      svar ((pairedRows xs ys).map Prod.snd) = 0 then none
  else some (((scov (pairedRows xs ys) : ℚ) : ℝ) /
    (Real.sqrt ((svar ((pairedRows xs ys).map Prod.fst) : ℚ) : ℝ) *
      Real.sqrt ((svar ((pairedRows xs ys).map Prod.snd) : ℚ) : ℝ)))

lemma pairedRows_self (xs : List (Option ℚ)) :
    pairedRows xs xs = (xs.filterMap id).map (fun a => (a, a)) := by
  induction xs with
  | nil => rfl
  | cons a t ih =>
      cases a with
      | none => simpa [pairedRows] using ih
      | some v => simpa [pairedRows] using ih

lemma scov_diag (vs : List ℚ) : scov (vs.map (fun a => (a, a))) = svar vs := by
  unfold scov svar
  have hfst : ((vs.map (fun a => (a, a))).map Prod.fst) = vs := by
    rw [List.map_map]
    show List.map id vs = vs
    exact List.map_id vs
  have hsnd : ((vs.map (fun a => (a, a))).map Prod.snd) = vs := by
    rw [List.map_map]
    show List.map id vs = vs
    exact List.map_id vs
  rw [hfst, hsnd, List.map_map, List.length_map]
  congr 1
  refine congrArg List.sum ?_
  apply List.map_congr_left
  intro a _
  simp [Function.comp, pow_two]

lemma svar_short (xs : List ℚ) (h : xs.length < 2) : svar xs = 0 := by
  match xs, h with
  | [], _ => simp [svar]
  | [x], _ => simp [svar, qmean]

/-- C5: the Pearson computation returns the NaN sentinel (`none`) — rather
than raising — whenever there are fewer than 2 paired points or either
paired column has zero variance; and the correlation of a column with
itself is exactly 1 whenever its (paired) variance is positive. -/
theorem pearson_spec (xs ys : List (Option ℚ)) :
    ((pairedRows xs ys).length < 2 ∨ svar ((pairedRows xs ys).map Prod.fst) = 0 ∨
        svar ((pairedRows xs ys).map Prod.snd) = 0 → pearson xs ys = none) ∧
    (0 < svar ((pairedRows xs xs).map Prod.fst) → pearson xs xs = some 1) := by
  constructor
  · intro h
    unfold pearson
    rw [if_pos h]
  · intro hv
    have hdiag := pairedRows_self xs
    have hfst : (pairedRows xs xs).map Prod.fst = xs.filterMap id := by
      rw [hdiag, List.map_map]
      show List.map id (xs.filterMap id) = xs.filterMap id
      exact List.map_id _
    have hsnd : (pairedRows xs xs).map Prod.snd = xs.filterMap id := by
      rw [hdiag, List.map_map]
      show List.map id (xs.filterMap id) = xs.filterMap id
      exact List.map_id _
    have hv2 : 0 < svar (xs.filterMap id) := by rwa [hfst] at hv
    have hlen : ¬ (pairedRows xs xs).length < 2 := by
      intro hl
      have hlv : (xs.filterMap id).length < 2 := by
        have hc := congrArg List.length hfst
        rw [List.length_map] at hc
        omega
      exact absurd (svar_short _ hlv) (ne_of_gt hv2)
    have hcov : scov (pairedRows xs xs) = svar (xs.filterMap id) := by
      rw [hdiag]; exact scov_diag _
    unfold pearson
    rw [if_neg (by
      rw [hfst, hsnd]
      push_neg
      exact ⟨Nat.le_of_not_lt hlen, ne_of_gt hv2, ne_of_gt hv2⟩)]
    rw [hcov, hfst, hsnd]
    have hcast : (0 : ℝ) < ((svar (xs.filterMap id) : ℚ) : ℝ) := by
      exact_mod_cast hv2
    rw [Real.mul_self_sqrt (le_of_lt hcast), div_self (ne_of_gt hcast)]

/-- Witness for C5: too few pairs yields the sentinel, and the
self-correlation of `[1, 2, 3]` is 1. -/
theorem pearson_spec_w :
    pearson [some (1 : ℚ)] [some (1 : ℚ)] = none ∧
    pearson [some (1 : ℚ), some 2, some 3] [some (1 : ℚ), some 2, some 3] = some 1 :=
  ⟨(pearson_spec [some 1] [some 1]).1 (Or.inl (by decide)),
   (pearson_spec [some 1, some 2, some 3] [some 1, some 2, some 3]).2 (by
      have h : (pairedRows [some (1 : ℚ), some 2, some 3]
          [some (1 : ℚ), some 2, some 3]).map Prod.fst = [1, 2, 3] := by
        simp [pairedRows]
      rw [h]
      norm_num [svar, qmean, List.sum_cons, List.sum_nil])⟩

/-- The standardization step (lines 119-120):
`(col - col.mean()) / col.std()` on the (possibly already smoothed, hence
NaN-carrying) `math_score` column.  pandas `mean`/`std` skip NaN entries and
`std` uses `ddof = 1`.  Float semantics at the degenerate cases: with fewer
than 2 non-NaN entries `std` is NaN, and with zero variance `std` is `0.0`
while every numerator `x - mean` is also `0.0`; either way each defined
entry becomes float NaN (`0/0` or `x/NaN`), modelled as `none`.  There is no
guard in the code: the NaN column is passed on silently. -/
noncomputable def standardizeOpt (col : List (Option ℚ)) : List (Option ℝ) :=
  col.map (fun x =>
    match x with
    | none => none
    | some a =>
        if (col.filterMap id).length < 2 ∨ svar (col.filterMap id) = 0 then none
        else some (((a - qmean (col.filterMap id) : ℚ) : ℝ) /
          Real.sqrt ((svar (col.filterMap id) : ℚ) : ℝ)))

/-- C6 evaluation at the failing input: standardizing a constant column
produces a full-length column of silent NaN values (`none`), not an
explicit guarded "undefined" outcome — the zero-standard-deviation division
happens and its NaN results flow on to the charts and the CSV export. -/
theorem standardize_constant_silent_nan :
    standardizeOpt [some 3, some 3, some 3] = [none, none, none] ∧
    (standardizeOpt [some 3, some 3, some 3]).length = 3 := by
  have hv : svar ([3, 3, 3] : List ℚ) = 0 := by
    norm_num [svar, qmean, List.sum_cons, List.sum_nil]
  constructor
  · simp [standardizeOpt, hv]
  · simp [standardizeOpt]

/-- One record of the user-study table built by `load_user_data`:
a year-start date, a summer temperature, and a math score. -/
structure URec where
  date : Date
  temp : ℚ
  score : ℚ
deriving DecidableEq

/-- The date-range filter (line 116):
`user_df[(user_df["date"] >= start_date) & (user_df["date"] <= end_date)]`,
a Boolean-mask selection that keeps rows in their original order. -/
def rangeFilter (s e : Date) (df : List URec) : List URec :=
  df.filter (fun r => decide (s.key ≤ r.date.key) && decide (r.date.key ≤ e.key))

/-- C8: the date-range filter returns exactly the records with
`start ≤ date ≤ end`, as a sublist of the input (original order preserved);
a range containing no record yields the empty table rather than an error. -/
theorem range_filter_spec (s e : Date) (df : List URec) :
    (rangeFilter s e df).Sublist df ∧
    (∀ r, r ∈ rangeFilter s e df ↔
      r ∈ df ∧ s.key ≤ r.date.key ∧ r.date.key ≤ e.key) ∧
    ((∀ r ∈ df, ¬(s.key ≤ r.date.key ∧ r.date.key ≤ e.key)) →
      rangeFilter s e df = []) := by
  refine ⟨List.filter_sublist df, ?_, ?_⟩
  · intro r
    unfold rangeFilter
    rw [List.mem_filter]
    simp [and_assoc]
  · intro h
    unfold rangeFilter
    rw [List.filter_eq_nil_iff]
    intro r hr
    simp only [Bool.and_eq_true, decide_eq_true_eq, not_and]
    intro h1 h2
    exact h r hr ⟨h1, h2⟩

/-- Witness for C8 on a concrete one-row table and an empty range. -/
theorem range_filter_spec_w :
    rangeFilter ⟨2001, 1, 1⟩ ⟨2002, 1, 1⟩ [⟨⟨2000, 1, 1⟩, 22, 500⟩] = [] ∧
    (⟨⟨2000, 1, 1⟩, 22, 500⟩ : URec) ∈
      rangeFilter ⟨2000, 1, 1⟩ ⟨2002, 1, 1⟩ [⟨⟨2000, 1, 1⟩, 22, 500⟩] :=
  ⟨(range_filter_spec ⟨2001, 1, 1⟩ ⟨2002, 1, 1⟩ [⟨⟨2000, 1, 1⟩, 22, 500⟩]).2.2
      (by decide),
   ((range_filter_spec ⟨2000, 1, 1⟩ ⟨2002, 1, 1⟩ [⟨⟨2000, 1, 1⟩, 22, 500⟩]).2.1
      ⟨⟨2000, 1, 1⟩, 22, 500⟩).mpr (by refine ⟨List.mem_singleton_self _, by decide, by decide⟩)⟩

/-- A row of the visualized user table `df_vis`: the filtered record with
its (possibly smoothed and/or standardized, hence NaN-carrying)
`math_score` column. -/
structure VRec where
  date : Date
  temp : ℚ
  math : Option ℝ

/-- The `df_vis` pipeline (lines 116-120): Boolean-mask date filter on a
copy, then optional rolling-mean smoothing of `math_score`, then optional
standardization of `math_score`; `date` and `summer_avg_temp_C` are never
assigned. -/
noncomputable def df_vis (s e : Date) (w : ℕ) (std : Bool) (df : List URec) : List VRec :=
  List.zipWith (fun r v => ⟨r.date, r.temp, v⟩) (rangeFilter s e df)
    (if std then standardizeOpt (applySmoothing w ((rangeFilter s e df).map URec.score))
     else (applySmoothing w ((rangeFilter s e df).map URec.score)).map
       (Option.map (fun q => ((q : ℚ) : ℝ))))

lemma standardizeOpt_length (col : List (Option ℚ)) :
    (standardizeOpt col).length = col.length := by
  simp [standardizeOpt]

lemma zipWith_mk_map_frame (f : List URec) (col : List (Option ℝ))
    (h : col.length = f.length) :
    (List.zipWith (fun r v => (⟨r.date, r.temp, v⟩ : VRec)) f col).map
        (fun x => (x.date, x.temp)) = f.map (fun r => (r.date, r.temp)) := by
  induction f generalizing col with
  | nil => simp
  | cons r t ih =>
      cases col with
      | nil => simp at h
      | cons v cv =>
          simp only [List.zipWith_cons_cons, List.map_cons]
          rw [ih cv (by simpa using h)]

/-- C10: for every date range, smoothing window, and standardize flag, the
user-data pipeline modifies only the `math_score` column: the `date` and
`summer_avg_temp_C` of every surviving row are exactly those of the
filtered records, in order, and smoothing/standardization neither add nor
remove rows. -/
theorem df_vis_frame (s e : Date) (w : ℕ) (std : Bool) (df : List URec) :
    (df_vis s e w std df).map (fun x => (x.date, x.temp)) =
      (rangeFilter s e df).map (fun r => (r.date, r.temp)) ∧
    (df_vis s e w std df).length = (rangeFilter s e df).length := by
  unfold df_vis
  have hlen : (if std then
        standardizeOpt (applySmoothing w ((rangeFilter s e df).map URec.score))
      else (applySmoothing w ((rangeFilter s e df).map URec.score)).map
        (Option.map (fun q => ((q : ℚ) : ℝ)))).length =
      (rangeFilter s e df).length := by
    cases std <;> simp [standardizeOpt_length, applySmoothing_length]
  exact ⟨zipWith_mk_map_frame _ _ hlen,
    by rw [List.length_zipWith, hlen, Nat.min_self]⟩

/-! CSV export and re-parse.  `to_csv(index=False)` writes a `date,value`
header line and one `date,value` line per row; dates print at day
granularity (`YYYY-MM-DD`), values print as the decimal literal whose
re-parse gives back the same number (Python float repr round-trips), and a
missing value prints as the empty field.  A decimal literal is modelled
exactly (mantissa and number of fraction digits). -/

/-- The ASCII digit character for a digit `d < 10`. -/
def charForDigit (d : ℕ) : Char := Char.ofNat (48 + d)

/-- The digit denoted by an ASCII digit character. -/
def digitVal (c : Char) : ℕ := c.toNat - 48

/-- Predicate: `c` is an ASCII digit. -/
def isDigitChar (c : Char) : Prop := 48 ≤ c.toNat ∧ c.toNat ≤ 57

instance (c : Char) : Decidable (isDigitChar c) :=
  inferInstanceAs (Decidable (48 ≤ c.toNat ∧ c.toNat ≤ 57))

/-- Decimal digit string of a natural number (big-endian, no sign). -/
def natToChars (n : ℕ) : List Char :=
  if n = 0 then ['0'] else ((Nat.digits 10 n).map charForDigit).reverse

/-- Value of a decimal digit string (big-endian). -/
def charsToNat (cs : List Char) : ℕ := Nat.ofDigits 10 ((cs.map digitVal).reverse)

/-- Left-pad a digit string with zeros to length at least `k`. -/
def padZeros (k : ℕ) (cs : List Char) : List Char :=
  List.replicate (k - cs.length) '0' ++ cs

lemma digitVal_charForDigit : ∀ d < 10, digitVal (charForDigit d) = d := by decide

lemma isDigitChar_charForDigit : ∀ d < 10, isDigitChar (charForDigit d) := by decide

lemma charsToNat_natToChars (n : ℕ) : charsToNat (natToChars n) = n := by
  by_cases h : n = 0
  · subst h
    simp [charsToNat, natToChars, digitVal, Nat.ofDigits]
  · unfold charsToNat natToChars
    rw [if_neg h, List.map_reverse, List.reverse_reverse, List.map_map]
    have h2 : ∀ d ∈ Nat.digits 10 n, (digitVal ∘ charForDigit) d = d := fun d hd =>
      digitVal_charForDigit d (Nat.digits_lt_base (by norm_num) hd)
    rw [List.map_congr_left h2]
    simpa using Nat.ofDigits_digits 10 n

lemma ofDigits_replicate_zero (j : ℕ) : Nat.ofDigits 10 (List.replicate j 0) = 0 := by
  induction j with
  | zero => rfl
  | succ n ih => simp [List.replicate_succ, Nat.ofDigits_cons, ih]

lemma charsToNat_padZeros (k : ℕ) (cs : List Char) :
    charsToNat (padZeros k cs) = charsToNat cs := by
  unfold charsToNat padZeros
  rw [List.map_append, List.reverse_append, Nat.ofDigits_append, List.map_replicate,
    List.reverse_replicate]
  have hz : digitVal '0' = 0 := rfl
  rw [hz, ofDigits_replicate_zero, mul_zero, add_zero]

lemma natToChars_ne_nil (n : ℕ) : natToChars n ≠ [] := by
  unfold natToChars
  split_ifs with h
  · simp
  · simp [Nat.digits_ne_nil_iff_ne_zero, h]

lemma padZeros_length (k : ℕ) (cs : List Char) :
    (padZeros k cs).length = max k cs.length := by
  simp [padZeros]
  omega

lemma padZeros_ne_nil (k : ℕ) (cs : List Char) (h : cs ≠ []) : padZeros k cs ≠ [] := by
  intro hc
  apply h
  have := congrArg List.length hc
  rw [padZeros_length] at this
  simp at this
  exact this.2

lemma mem_padZeros {c : Char} {k : ℕ} {cs : List Char} (h : c ∈ padZeros k cs) :
    c = '0' ∨ c ∈ cs := by
  unfold padZeros at h
  rcases List.mem_append.mp h with h | h
  · exact Or.inl (List.eq_of_mem_replicate h)
  · exact Or.inr h

lemma mem_natToChars {c : Char} {n : ℕ} (h : c ∈ natToChars n) : isDigitChar c := by
  unfold natToChars at h
  split_ifs at h with h0
  · rw [List.mem_singleton] at h
    subst h
    decide
  · rw [List.mem_reverse] at h
    rcases List.mem_map.mp h with ⟨d, hd, rfl⟩
    exact isDigitChar_charForDigit d (Nat.digits_lt_base (by norm_num) hd)

lemma mem_padZeros_natToChars {c : Char} {k n : ℕ} (h : c ∈ padZeros k (natToChars n)) :
    isDigitChar c := by
  rcases mem_padZeros h with h | h
  · subst h
    decide
  · exact mem_natToChars h

lemma isDigitChar_ne {c : Char} (h : isDigitChar c) :
    c ≠ ',' ∧ c ≠ '-' ∧ c ≠ '.' ∧ c ≠ '\n' := by
  obtain ⟨h1, h2⟩ := h
  refine ⟨?_, ?_, ?_, ?_⟩ <;> (rintro rfl; revert h1 h2; decide)

lemma intercalate_one (sep : Char) (a : List Char) :
    List.intercalate [sep] [a] = a := by
  simp [List.intercalate]

lemma intercalate_two (sep : Char) (a b : List Char) :
    List.intercalate [sep] [a, b] = a ++ sep :: b := by
  simp [List.intercalate]

lemma intercalate_three (sep : Char) (a b c : List Char) :
    List.intercalate [sep] [a, b, c] = a ++ sep :: (b ++ sep :: c) := by
  simp [List.intercalate]

/-- The `YYYY-MM-DD` serialization of a date — `to_csv` prints the normalized
timestamps at day granularity. -/
def dateChars (t : Date) : List Char :=
  List.intercalate ['-'] [padZeros 4 (natToChars t.y), padZeros 2 (natToChars t.m),
    padZeros 2 (natToChars t.d)]

/-- Re-parse of a serialized date: split on the dashes and read the three
decimal fields. -/
def parseDateChars (cs : List Char) : Option Date :=
  match cs.splitOn '-' with
  | [ys, ms, ds] => some ⟨charsToNat ys, charsToNat ms, charsToNat ds⟩
  | _ => none

lemma mem_dateChars {c : Char} {t : Date} (h : c ∈ dateChars t) :
    isDigitChar c ∨ c = '-' := by
  unfold dateChars at h
  rw [intercalate_three] at h
  rcases List.mem_append.mp h with h | h
  · exact Or.inl (mem_padZeros_natToChars h)
  · rcases List.mem_cons.mp h with h | h
    · exact Or.inr h
    · rcases List.mem_append.mp h with h | h
      · exact Or.inl (mem_padZeros_natToChars h)
      · rcases List.mem_cons.mp h with h | h
        · exact Or.inr h
        · exact Or.inl (mem_padZeros_natToChars h)

lemma parseDateChars_dateChars (t : Date) : parseDateChars (dateChars t) = some t := by
  unfold parseDateChars dateChars
  rw [List.splitOn_intercalate
    [padZeros 4 (natToChars t.y), padZeros 2 (natToChars t.m), padZeros 2 (natToChars t.d)]
    '-' ?hx (by simp)]
  case hx =>
    intro l hl hc
    simp at hl
    have hd : isDigitChar '-' := by
      rcases hl with rfl | rfl | rfl <;> exact mem_padZeros_natToChars hc
    exact (isDigitChar_ne hd).2.1 rfl
  simp only [charsToNat_padZeros, charsToNat_natToChars]

lemma charsToNat_append (xs ys : List Char) :
    charsToNat (xs ++ ys) = charsToNat xs * 10 ^ ys.length + charsToNat ys := by
  unfold charsToNat
  rw [List.map_append, List.reverse_append, Nat.ofDigits_append, List.length_reverse,
    List.length_map]
  ring

/-- A decimal literal as printed in the CSV: integer mantissa and number of
fraction digits; it denotes `m / 10 ^ e`.  Python float repr prints such a
literal and re-parses it to the same float, so the pair is the exact
information a value field round-trips. -/
structure Dec where
  m : ℤ
  e : ℕ
deriving DecidableEq

/-- Serialize a decimal literal: optional minus sign, then the mantissa
digits with a point before the last `e` of them (mantissa digits
left-padded with zeros so at least one digit precedes the point). -/
def decChars (v : Dec) : List Char :=
  (if v.m < 0 then ['-'] else []) ++
    (if v.e = 0 then natToChars v.m.natAbs
     else
       List.intercalate ['.']
         [(padZeros (v.e + 1) (natToChars v.m.natAbs)).take
             ((padZeros (v.e + 1) (natToChars v.m.natAbs)).length - v.e),
          (padZeros (v.e + 1) (natToChars v.m.natAbs)).drop
             ((padZeros (v.e + 1) (natToChars v.m.natAbs)).length - v.e)])

/-- Parse a decimal literal: optional minus sign, then the integer and
fraction fields split on the point; the fraction-digit count is kept. -/
def parseDecChars (cs : List Char) : Option Dec :=
  match cs with
  | [] => none
  | c :: rest =>
      let body := if c = '-' then rest else cs
      let sign : ℤ := if c = '-' then -1 else 1
      match body.splitOn '.' with
      | [ip] => some ⟨sign * (charsToNat ip : ℤ), 0⟩
      | [ip, fp] =>
          some ⟨sign * ((charsToNat ip * 10 ^ fp.length + charsToNat fp : ℕ) : ℤ), fp.length⟩
      | _ => none

lemma mem_decChars {c : Char} {v : Dec} (h : c ∈ decChars v) :
    isDigitChar c ∨ c = '-' ∨ c = '.' := by
  unfold decChars at h
  rcases List.mem_append.mp h with h | h
  · split_ifs at h
    · rw [List.mem_singleton] at h
      exact Or.inr (Or.inl h)
    · simp at h
  · split_ifs at h with he
    · exact Or.inl (mem_natToChars h)
    · rw [intercalate_two] at h
      rcases List.mem_append.mp h with h | h
      · exact Or.inl (mem_padZeros_natToChars (List.mem_of_mem_take h))
      · rcases List.mem_cons.mp h with h | h
        · exact Or.inr (Or.inr h)
        · exact Or.inl (mem_padZeros_natToChars (List.mem_of_mem_drop h))

lemma splitOn_no_sep (cs : List Char) (sep : Char) (h : sep ∉ cs) :
    cs.splitOn sep = [cs] := by
  have hs := List.splitOn_intercalate [cs] sep
    (by intro l hl; simp at hl; subst hl; exact h) (by simp)
  rwa [intercalate_one] at hs

lemma splitOn_pair (aL bL : List Char) (sep : Char) (ha : sep ∉ aL) (hb : sep ∉ bL) :
    (aL ++ sep :: bL).splitOn sep = [aL, bL] := by
  have hs := List.splitOn_intercalate [aL, bL] sep
    (by intro l hl; simp at hl; rcases hl with rfl | rfl; exacts [ha, hb]) (by simp)
  rwa [intercalate_two] at hs

lemma dec_split_fp_length (a e : ℕ) :
    ((padZeros (e + 1) (natToChars a)).drop
      ((padZeros (e + 1) (natToChars a)).length - e)).length = e := by
  rw [List.length_drop]
  have h := padZeros_length (e + 1) (natToChars a)
  omega

lemma charsToNat_take_drop (cs : List Char) (k : ℕ) :
    charsToNat (cs.take k) * 10 ^ (cs.drop k).length + charsToNat (cs.drop k) =
      charsToNat cs := by
  rw [← charsToNat_append, List.take_append_drop]

lemma dec_split_value (a e : ℕ) :
    charsToNat ((padZeros (e + 1) (natToChars a)).take
        ((padZeros (e + 1) (natToChars a)).length - e)) *
      10 ^ (((padZeros (e + 1) (natToChars a)).drop
        ((padZeros (e + 1) (natToChars a)).length - e)).length) +
      charsToNat ((padZeros (e + 1) (natToChars a)).drop
        ((padZeros (e + 1) (natToChars a)).length - e)) = a := by
  rw [charsToNat_take_drop, charsToNat_padZeros, charsToNat_natToChars]

lemma dec_ip_ne_nil (a e : ℕ) :
    (padZeros (e + 1) (natToChars a)).take
      ((padZeros (e + 1) (natToChars a)).length - e) ≠ [] := by
  intro h
  have h2 : ((padZeros (e + 1) (natToChars a)).take
      ((padZeros (e + 1) (natToChars a)).length - e)).length = 0 := by
    rw [h]
    rfl
  rw [List.length_take] at h2
  have hp := padZeros_length (e + 1) (natToChars a)
  omega

lemma dec_body_cons (a e : ℕ) :
    ∃ d ds, (padZeros (e + 1) (natToChars a)).take
        ((padZeros (e + 1) (natToChars a)).length - e) = d :: ds ∧ isDigitChar d := by
  obtain ⟨d, ds, h⟩ := List.exists_cons_of_ne_nil (dec_ip_ne_nil a e)
  have hmem : d ∈ (padZeros (e + 1) (natToChars a)).take
      ((padZeros (e + 1) (natToChars a)).length - e) := by
    rw [h]
    exact List.mem_cons_self d ds
  exact ⟨d, ds, h, mem_padZeros_natToChars (List.mem_of_mem_take hmem)⟩

lemma dec_split_splitOn (a e : ℕ) :
    ((padZeros (e + 1) (natToChars a)).take
        ((padZeros (e + 1) (natToChars a)).length - e) ++
      '.' :: (padZeros (e + 1) (natToChars a)).drop
        ((padZeros (e + 1) (natToChars a)).length - e)).splitOn '.' =
    [(padZeros (e + 1) (natToChars a)).take
        ((padZeros (e + 1) (natToChars a)).length - e),
     (padZeros (e + 1) (natToChars a)).drop
        ((padZeros (e + 1) (natToChars a)).length - e)] :=
  splitOn_pair _ _ '.'
    (fun hc => (isDigitChar_ne (mem_padZeros_natToChars
      (List.mem_of_mem_take hc))).2.2.1 rfl)
    (fun hc => (isDigitChar_ne (mem_padZeros_natToChars
      (List.mem_of_mem_drop hc))).2.2.1 rfl)

lemma parseDecChars_decChars (v : Dec) : parseDecChars (decChars v) = some v := by
  by_cases he : v.e = 0
  · have hns : ('.') ∉ natToChars v.m.natAbs := fun hc =>
      (isDigitChar_ne (mem_natToChars hc)).2.2.1 rfl
    have hsplit : (natToChars v.m.natAbs).splitOn '.' = [natToChars v.m.natAbs] :=
      splitOn_no_sep _ _ hns
    by_cases hm : v.m < 0
    · have hdc : decChars v = '-' :: natToChars v.m.natAbs := by
        unfold decChars
        rw [if_pos hm, if_pos he]
        rfl
      rw [hdc]
      simp only [parseDecChars, if_pos rfl, if_true]
      rw [hsplit]
      simp only [charsToNat_natToChars]
      have hmm : (-1 : ℤ) * (v.m.natAbs : ℤ) = v.m := by omega
      rw [hmm, ← he]
    · obtain ⟨d, ds, hnc⟩ := List.exists_cons_of_ne_nil (natToChars_ne_nil v.m.natAbs)
      have hd : isDigitChar d := mem_natToChars (by
        rw [hnc]
        exact List.mem_cons_self d ds)
      have hdc : decChars v = natToChars v.m.natAbs := by
        unfold decChars
        rw [if_neg hm, if_pos he]
        rfl
      rw [hdc, hnc]
      simp only [parseDecChars, if_neg ((isDigitChar_ne hd).2.1)]
      rw [← hnc, hsplit]
      simp only [charsToNat_natToChars]
      have hmm : (1 : ℤ) * (v.m.natAbs : ℤ) = v.m := by omega
      rw [hmm, ← he]
  · by_cases hm : v.m < 0
    · have hdc : decChars v = '-' ::
          ((padZeros (v.e + 1) (natToChars v.m.natAbs)).take
              ((padZeros (v.e + 1) (natToChars v.m.natAbs)).length - v.e) ++
            '.' :: (padZeros (v.e + 1) (natToChars v.m.natAbs)).drop
              ((padZeros (v.e + 1) (natToChars v.m.natAbs)).length - v.e)) := by
        unfold decChars
        rw [if_pos hm, if_neg he, intercalate_two]
        rfl
      rw [hdc]
      simp only [parseDecChars, if_pos rfl, if_true]
      rw [dec_split_splitOn v.m.natAbs v.e]
      simp only []
      rw [dec_split_value v.m.natAbs v.e, dec_split_fp_length v.m.natAbs v.e]
      have hmm : (-1 : ℤ) * (v.m.natAbs : ℤ) = v.m := by omega
      rw [hmm]
    · obtain ⟨d, ds, hcons, hd⟩ := dec_body_cons v.m.natAbs v.e
      have hdc : decChars v = d ::
          (ds ++ '.' :: (padZeros (v.e + 1) (natToChars v.m.natAbs)).drop
            ((padZeros (v.e + 1) (natToChars v.m.natAbs)).length - v.e)) := by
        unfold decChars
        rw [if_neg hm, if_neg he, intercalate_two, hcons]
        rfl
      rw [hdc]
      simp only [parseDecChars, if_neg ((isDigitChar_ne hd).2.1)]
      have hback : d :: (ds ++ '.' :: (padZeros (v.e + 1) (natToChars v.m.natAbs)).drop
            ((padZeros (v.e + 1) (natToChars v.m.natAbs)).length - v.e)) =
          (padZeros (v.e + 1) (natToChars v.m.natAbs)).take
              ((padZeros (v.e + 1) (natToChars v.m.natAbs)).length - v.e) ++
            '.' :: (padZeros (v.e + 1) (natToChars v.m.natAbs)).drop
              ((padZeros (v.e + 1) (natToChars v.m.natAbs)).length - v.e) := by
        rw [hcons]
        rfl
      rw [hback, dec_split_splitOn v.m.natAbs v.e]
      simp only []
      rw [dec_split_value v.m.natAbs v.e, dec_split_fp_length v.m.natAbs v.e]
      have hmm : (1 : ℤ) * (v.m.natAbs : ℤ) = v.m := by omega
      rw [hmm]

/-- A normalized series row as exported by `to_csv(index=False)`: a date
and a value that may be missing (pandas writes NaN as the empty field and
`read_csv` parses the empty field back to NaN). -/
structure CsvRow where
  date : Date
  value : Option Dec
deriving DecidableEq

/-- The serialized value field: a missing value is the empty field. -/
def valueField (v : Option Dec) : List Char :=
  match v with
  | none => []
  | some d => decChars d

/-- One CSV data line `date,value`. -/
def rowChars (r : CsvRow) : List Char :=
  List.intercalate [','] [dateChars r.date, valueField r.value]

/-- Parse one CSV data line. -/
def parseRowChars (cs : List Char) : Option CsvRow :=
  match cs.splitOn ',' with
  | [df, vf] =>
      match parseDateChars df with
      | none => none
      | some t =>
          if vf = [] then some ⟨t, none⟩
          else
            match parseDecChars vf with
            | none => none
            | some d => some ⟨t, some d⟩
  | _ => none

/-- The header line `date,value`. -/
def headerChars : List Char := ['d', 'a', 't', 'e', ',', 'v', 'a', 'l', 'u', 'e']

/-- The exported text of `noaa_df.to_csv(index=False)`: the header line
then one line per row, newline separated. -/
def csvChars (rows : List CsvRow) : List Char :=
  List.intercalate ['\n'] (headerChars :: rows.map rowChars)

/-- Parse data lines back to rows (all-or-nothing). -/
def parseRowsChars : List (List Char) → Option (List CsvRow)
  | [] => some []
  | l :: ls =>
      match parseRowChars l with
      | none => none
      | some r =>
          match parseRowsChars ls with
          | none => none
          | some rs => some (r :: rs)

/-- Re-parse an exported CSV: split into lines, check the header line, and
parse every data line. -/
def parseCsvChars (cs : List Char) : Option (List CsvRow) :=
  match cs.splitOn '\n' with
  | [] => none
  | h :: body => if h = headerChars then parseRowsChars body else none

lemma mem_valueField {c : Char} {v : Option Dec} (h : c ∈ valueField v) :
    isDigitChar c ∨ c = '-' ∨ c = '.' := by
  cases v with
  | none => simp [valueField] at h
  | some d => exact mem_decChars h

lemma rowChars_eq (r : CsvRow) :
    rowChars r = dateChars r.date ++ ',' :: valueField r.value := by
  unfold rowChars
  rw [intercalate_two]

lemma comma_not_mem_dateChars {t : Date} : (',') ∉ dateChars t := by
  intro hc
  rcases mem_dateChars hc with h | h
  · exact (isDigitChar_ne h).1 rfl
  · exact absurd h (by decide)

lemma comma_not_mem_valueField {v : Option Dec} : (',') ∉ valueField v := by
  intro hc
  rcases mem_valueField hc with h | h | h
  · exact (isDigitChar_ne h).1 rfl
  · exact absurd h (by decide)
  · exact absurd h (by decide)

lemma newline_not_mem_rowChars {r : CsvRow} : ('\n') ∉ rowChars r := by
  rw [rowChars_eq]
  intro hc
  rcases List.mem_append.mp hc with h | h
  · rcases mem_dateChars h with h | h
    · exact (isDigitChar_ne h).2.2.2 rfl
    · exact absurd h (by decide)
  · rcases List.mem_cons.mp h with h | h
    · exact absurd h (by decide)
    · rcases mem_valueField h with h | h | h
      · exact (isDigitChar_ne h).2.2.2 rfl
      · exact absurd h (by decide)
      · exact absurd h (by decide)

lemma decChars_ne_nil (v : Dec) : decChars v ≠ [] := by
  unfold decChars
  apply List.append_ne_nil_of_right_ne_nil
  split_ifs
  · exact natToChars_ne_nil _
  · rw [intercalate_two]
    exact List.append_ne_nil_of_right_ne_nil _ (List.cons_ne_nil _ _)

lemma parseRowChars_rowChars (r : CsvRow) : parseRowChars (rowChars r) = some r := by
  rw [rowChars_eq]
  have hsplit : (dateChars r.date ++ ',' :: valueField r.value).splitOn ',' =
      [dateChars r.date, valueField r.value] :=
    splitOn_pair _ _ ',' comma_not_mem_dateChars comma_not_mem_valueField
  unfold parseRowChars
  rw [hsplit]
  simp only [parseDateChars_dateChars]
  cases hv : r.value with
  | none =>
      simp only [valueField, if_pos rfl, if_true]
      rw [← hv]
  | some d =>
      have hne : valueField (some d) ≠ [] := decChars_ne_nil d
      simp only [valueField] at hne ⊢
      rw [if_neg hne, parseDecChars_decChars]
      show some (⟨r.date, some d⟩ : CsvRow) = some r
      exact congrArg some (by rw [← hv])

lemma parseRowsChars_map (rows : List CsvRow) :
    parseRowsChars (rows.map rowChars) = some rows := by
  induction rows with
  | nil => rfl
  | cons r rs ih => simp [parseRowsChars, parseRowChars_rowChars, ih]

/-- C9: exporting a normalized series to comma-separated text — a
`date,value` header line, then one `date,value` line per row, dates at day
granularity and values as their decimal literals — and re-parsing that text
yields exactly the same (date, value) pairs.  (The byte encoding of this
text as UTF-8 is injective and outside the character-level model.) -/
theorem csv_round_trip (rows : List CsvRow) :
    ((csvChars rows).splitOn '\n').head? = some headerChars ∧
    parseCsvChars (csvChars rows) = some rows := by
  have hsplit : (csvChars rows).splitOn '\n' = headerChars :: rows.map rowChars := by
    unfold csvChars
    apply List.splitOn_intercalate (headerChars :: rows.map rowChars) '\n' ?_ (by simp)
    intro l hl
    rcases List.mem_cons.mp hl with rfl | hl
    · decide
    · rcases List.mem_map.mp hl with ⟨r, _, rfl⟩
      exact newline_not_mem_rowChars
  constructor
  · rw [hsplit]
    rfl
  · unfold parseCsvChars
    rw [hsplit]
    simp only [if_pos rfl, if_true]
    exact parseRowsChars_map rows

end Climate
